import Mathlib

/-!
Shallow embedding of the web-profiler load-orchestration engine
(`webloader/loader.py` and `webloader/chrome_loader.py`).

The pure result model (`LoadResult`, `PageResult`) is translated directly.
The stateful orchestrator `Loader.load_pages` is translated into explicit
state passing over `RunState`; the external collaborators (the backend's
`_setup`/`_teardown`/`_load_page` hooks and the protocol prober's network
request) are modelled by an oracle `Env` supplying, per call site, the
value the collaborator would return.  Per the documented backend contract,
`setup` returns a boolean and `teardown` is always safe, while `_load_page`
may raise an arbitrary exception (`AttemptOutcome.err`), which the engine's
per-trial handler catches.
-/

namespace WebLoader

/-- Status constants of `LoadResult` (one trial). -/
inductive LoadStatus
  | success
  | failureTimeout
  | failureUnknown
  | failureNo200
  | failureUnset
deriving DecidableEq, Repr

/-- `LoadResult.__init__`: status and stats for a single URL load (one trial).
Load time and size are modelled as `Option Nat`; Python truthiness of
`result.time` (`None` and `0` are falsy) is `truthy` below. -/
structure LoadResult where
  status : LoadStatus
  url : String
  final_url : Option String := none
  time : Option Nat := none
  size : Option Nat := none
  har : Option String := none
  img : Option String := none
  raw : Option String := none
  tcp_fast_open_supported : Bool := false
deriving DecidableEq, Repr

/-- Python truthiness of an optional number: `None` and `0` are falsy. -/
def truthy : Option Nat → Bool
  | none => false
  | some n => n != 0

/-- Status constants of `PageResult` (all trials of one URL). -/
inductive PageStatus
  | success
  | partialSuccess
  | failureNotAccessible
  | failureUnknown
  | failureUnset
deriving DecidableEq, Repr

/-- The fields of `PageResult`. -/
structure PageResult where
  status : PageStatus
  url : String
  times : List Nat
  sizes : List Nat
  tcp_fast_open_support_statuses : List Bool
deriving DecidableEq, Repr

/-- `PageResult.__init__ (url, status=None, load_results=None)`.
Starts from `FAILURE_UNSET`; iterates `load_results` (when non-empty)
collecting, for each `SUCCESS` result, its truthy time, truthy size and TCP
fast-open flag, and derives the overall status from whether a success and a
failure were seen; a non-`None` `status` argument overrides the derived
status at the end. -/
def PageResult.make (url : String) (status : Option PageStatus)
    (load_results : List LoadResult) : PageResult :=
  let successes := load_results.filter (fun r => r.status == LoadStatus.success)
  let was_a_success := !successes.isEmpty
  let was_a_failure := load_results.any (fun r => r.status != LoadStatus.success)
  let derived : PageStatus :=
    if load_results.isEmpty then PageStatus.failureUnset
    else if was_a_failure && was_a_success then PageStatus.partialSuccess
    else if was_a_success then PageStatus.success
    else PageStatus.failureUnknown
  { status := match status with
      | some s => s
      | none => derived
    url := url
    times := (successes.filter (fun r => truthy r.time)).map (fun r => r.time.getD 0)
    sizes := (successes.filter (fun r => truthy r.size)).map (fun r => r.size.getD 0)
    tcp_fast_open_support_statuses := successes.map (fun r => r.tcp_fast_open_supported) }

/-- The characters of the regex character class in `Loader._sanitize_url`,
`r'[/\;,><&*:%=+@!#^()|?^]'`.  Inside a Python regex character class the
backslash escapes the following semicolon, so the class holds `;` but not
the backslash itself; `^` is listed twice and is literal (not first). -/
def sanitizeChars : List Char :=
  ['/', ';', ',', '>', '<', '&', '*', ':', '%', '=', '+', '@', '!', '#',
   '^', '(', ')', '|', '?']

/-- `Loader._sanitize_url`: replace every character matching the class with
a dash. -/
def Loader.sanitize_url (url : String) : String :=
  String.mk (url.data.map (fun c => if c ∈ sanitizeChars then '-' else c))

/-- Whether `pat` is an initial segment of the character list. -/
def startsWithSeq : List Char → List Char → Bool
  | _, [] => true
  | [], _ :: _ => false
  | c :: cs, p :: ps => c == p && startsWithSeq cs ps

/-- Python's `pat in s` on character lists: `pat` occurs as a contiguous
subsequence. -/
def containsSeq : List Char → List Char → Bool
  | [], pat => pat.isEmpty
  | c :: cs, pat => startsWithSeq (c :: cs) pat || containsSeq cs pat

/-- `Loader._check_url`: prepend `http://` when the URL has no `://`. -/
def Loader.check_url (url : String) : String :=
  if containsSeq url.data "://".data then url else "http://" ++ url

/-- The `Loader.__init__` options consumed by the orchestration logic. -/
structure Config where
  outdir : String := "."
  num_trials : Nat := 1
  timeout : Nat := 30
  restart_on_fail : Bool := false
  save_har : Bool := false
  retries_per_trial : Nat := 0
  check_protocol_availability : Bool := true

/-- What one call of the backend's `_load_page` does: return a `LoadResult`,
or raise (caught by the per-trial `except` in `load_pages`). -/
inductive AttemptOutcome
  | ok (r : LoadResult)
  | err
deriving DecidableEq, Repr

/-- Oracle for the external collaborators: the initial `_setup()` return
value, the prober's verdict for the URL at each list position, and the
`_load_page` outcome for each (URL position, trial index, try number). -/
structure Env where
  setupOk : Bool
  probe : Nat → Bool
  attempt : Nat → Nat → Nat → AttemptOutcome

/-- Observable calls the engine makes, in execution order. -/
inductive Event
  | setup
  | teardown
  | probeEv (url : String)
  | attemptEv (url : String) (trial : Nat) (tryNo : Nat)
deriving DecidableEq, Repr

def isTeardown : Event → Bool
  | Event.teardown => true
  | _ => false

def isSetup : Event → Bool
  | Event.setup => true
  | _ => false

def isAttempt : Event → Bool
  | Event.attemptEv _ _ _ => true
  | _ => false

/-- Attempt events of one trial of one URL. -/
def isAttemptTrial (url : String) (i : Nat) : Event → Bool
  | Event.attemptEv u j _ => u == url && j == i
  | _ => false

/-- The orchestrator state owned by a `Loader` instance: `_urls`,
`_load_results` (a `defaultdict(list)`), `_page_results`, `_num_restarts`,
plus the trace of external calls made so far. -/
structure RunState where
  urls : List String
  load_results : String → List LoadResult
  page_results : String → Option PageResult
  num_restarts : Nat
  trace : List Event

/-- Fresh `Loader` state (`Loader.__init__`). -/
def initState : RunState :=
  { urls := []
    load_results := fun _ => []
    page_results := fun _ => none
    num_restarts := 0
    trace := [] }

/-- `self._urls.append(url); self._load_results[url].append(result)`. -/
def recordResult (st : RunState) (url : String) (r : LoadResult) : RunState :=
  { st with
    urls := st.urls ++ [url]
    load_results := fun x => if x = url then st.load_results x ++ [r] else st.load_results x }

/-- The retry loop of `Loader.load_pages` for one trial (`while tries_so_far
<= self._retries_per_trial`), with `fuel` tries left and the current attempt
numbered `tryNo` (Python's `tries_so_far` after its increment).  A raising
`_load_page` ends the trial (the per-trial `except` catches it, recording
nothing); a `SUCCESS` is recorded and stops the loop; the last allowed try's
failure is recorded; an `UNKNOWN` failure under `restart_on_fail` tears the
backend down, sets it up again and bumps `_num_restarts` before the next
try. -/
def tryLoop (cfg : Config) (env : Env) (u i : Nat) (url : String) :
    Nat → Nat → RunState → RunState
  | 0, _, st => st
  | fuel + 1, tryNo, st =>
    let st := { st with trace := st.trace ++ [Event.attemptEv url i tryNo] }
    match env.attempt u i tryNo with
    | AttemptOutcome.err => st
    | AttemptOutcome.ok r =>
      if r.status == LoadStatus.success then
        recordResult st url r
      else
        let st := if fuel == 0 then recordResult st url r else st
        let st :=
          if r.status == LoadStatus.failureUnknown && cfg.restart_on_fail then
            { st with
              trace := st.trace ++ [Event.teardown, Event.setup]
              num_restarts := st.num_restarts + 1 }
          else st
        tryLoop cfg env u i url fuel (tryNo + 1) st

/-- `for i in range(0, self._num_trials)` of `Loader.load_pages`: run the
retry loop for trials `i, i+1, ...` while `fuel` trials remain. -/
def trialLoop (cfg : Config) (env : Env) (u : Nat) (url : String) :
    Nat → Nat → RunState → RunState
  | _, 0, st => st
  | i, fuel + 1, st =>
    trialLoop cfg env u url (i + 1) fuel
      (tryLoop cfg env u i url (cfg.retries_per_trial + 1) 1 st)

/-- The final per-URL step of `Loader.load_pages`: store the `PageResult`
summarizing `self._load_results[url]`. -/
def finishUrl (st : RunState) (url : String) : RunState :=
  { st with
    page_results := fun x =>
      if x = url then some (PageResult.make url none (st.load_results url))
      else st.page_results x }

/-- The body of `for url in urls` in `Loader.load_pages` for the URL at list
position `u`: normalize the URL, gate on the protocol prober when enabled
(recording a `FAILURE_NOT_ACCESSIBLE` summary and skipping all trials on a
negative verdict), otherwise run all trials and store the summary. -/
def urlStep (cfg : Config) (env : Env) (u : Nat) (rawUrl : String)
    (st : RunState) : RunState :=
  let url := Loader.check_url rawUrl
  if cfg.check_protocol_availability && !(env.probe u) then
    let st := { st with trace := st.trace ++ [Event.probeEv url] }
    { st with
      urls := st.urls ++ [url]
      page_results := fun x =>
        if x = url then
          some (PageResult.make url (some PageStatus.failureNotAccessible) [])
        else st.page_results x }
  else
    let st :=
      if cfg.check_protocol_availability then
        { st with trace := st.trace ++ [Event.probeEv url] }
      else st
    finishUrl (trialLoop cfg env u url 0 cfg.num_trials st) url

/-- `for url in urls` of `Loader.load_pages`, numbering positions from `u`. -/
def urlLoop (cfg : Config) (env : Env) : Nat → List String → RunState → RunState
  | _, [], st => st
  | u, rawUrl :: rest, st => urlLoop cfg env (u + 1) rest (urlStep cfg env u rawUrl st)

/-- `Loader.load_pages(urls)` on a fresh `Loader`: call `_setup()` (aborting
the URL loop when it returns false), iterate the URLs, and always call
`_teardown()` once at the end (the `finally` block). -/
def Loader.load_pages (cfg : Config) (env : Env) (urls : List String) : RunState :=
  let st0 : RunState := { initState with trace := [Event.setup] }
  let st1 := if env.setupOk then urlLoop cfg env 0 urls st0 else st0
  { st1 with trace := st1.trace ++ [Event.teardown] }

/-- Outcome of the `chrome-har-capturer` subprocess in
`ChromeLoader._load_page`: it completes, hits the `Timeout` alarm, exits
non-zero (`CalledProcessError` with its output), or fails otherwise. -/
inductive CapturerOutcome
  | completes
  | timesOut
  | processFails (output : String)
  | otherError
deriving DecidableEq, Repr

/-- The HAR path `ChromeLoader._load_page` chooses:
`os.path.join(outdir, '%s_trial%d.har' % (safeurl, trial_num))` when
`save_har` is set, else `/dev/null`. -/
def ChromeLoader.harPath (save_har : Bool) (outdir url : String) (trial_num : Nat) : String :=
  if save_har then
    outdir ++ "/" ++ Loader.sanitize_url url ++ "_trial" ++ toString trial_num ++ ".har"
  else "/dev/null"

/-- `ChromeLoader._load_page`: a timeout maps to `FAILURE_TIMEOUT`, any
other error to `FAILURE_UNKNOWN`, and completion to `SUCCESS` carrying only
the HAR path — no load time and no final URL are reported. -/
def ChromeLoader.load_page (save_har : Bool) (outdir url : String) (trial_num : Nat)
    (outcome : CapturerOutcome) : LoadResult :=
  match outcome with
  | CapturerOutcome.timesOut => { status := LoadStatus.failureTimeout, url := url }
  | CapturerOutcome.processFails _ => { status := LoadStatus.failureUnknown, url := url }
  | CapturerOutcome.otherError => { status := LoadStatus.failureUnknown, url := url }
  | CapturerOutcome.completes =>
      { status := LoadStatus.success
        url := url
        har := some (ChromeLoader.harPath save_har outdir url trial_num) }

/-!  Specification-side helpers, used only to state properties of the retry
loop: the first try number (from `t`, within `fuel` tries) whose result is a
success, and the failing results the loop sees before that success (all
results of the window when no try succeeds). -/

/-- First try number in `[t, t + fuel)` whose result succeeds. -/
def firstSuccess (f : Nat → LoadResult) : Nat → Nat → Option Nat
  | _, 0 => none
  | t, fuel + 1 =>
    if (f t).status == LoadStatus.success then some t
    else firstSuccess f (t + 1) fuel

/-- The failing results in `[t, t + fuel)` before the first success. -/
def failuresBefore (f : Nat → LoadResult) : Nat → Nat → List LoadResult
  | _, 0 => []
  | t, fuel + 1 =>
    if (f t).status == LoadStatus.success then []
    else f t :: failuresBefore f (t + 1) fuel

/-!  Concrete fixtures used by witnesses and counterexamples. -/

/-- A backend whose every `_load_page` call raises. -/
def envRaise : Env :=
  { setupOk := true, probe := fun _ => true, attempt := fun _ _ _ => AttemptOutcome.err }

/-- A successful trial result carrying a load time. -/
def resSucc : LoadResult := { status := LoadStatus.success, url := "u", time := some 1 }

/-- A failed trial result. -/
def resFail : LoadResult := { status := LoadStatus.failureUnknown, url := "u" }

/-- One trial, no probing: the shape of a minimal ChromeLoader run. -/
def cfgChrome : Config := { num_trials := 1, check_protocol_availability := false }

/-- A backend behaving like `ChromeLoader._load_page` on a completing
capturer: every attempt reports `SUCCESS` with a HAR path and no time. -/
def envChrome : Env :=
  { setupOk := true
    probe := fun _ => true
    attempt := fun _ i _ =>
      AttemptOutcome.ok (ChromeLoader.load_page false "." "http://a" i CapturerOutcome.completes) }

/-- A successful trial result with a load time, for a timed backend. -/
def resTimed : LoadResult := { status := LoadStatus.success, url := "http://x", time := some 2 }

/-- A backend whose every attempt succeeds with load time 2. -/
def envTimed : Env :=
  { setupOk := true, probe := fun _ => true, attempt := fun _ _ _ => AttemptOutcome.ok resTimed }

/-- Try 1 fails with an unknown failure, try 2 times out, try 3 succeeds. -/
def fRetry : Nat → LoadResult := fun t =>
  if t == 1 then { status := LoadStatus.failureUnknown, url := "u" }
  else if t == 2 then { status := LoadStatus.failureTimeout, url := "u" }
  else { status := LoadStatus.success, url := "u", time := some 4 }

/-- A backend following `fRetry` on every trial. -/
def envRetry : Env :=
  { setupOk := true, probe := fun _ => true, attempt := fun _ _ t => AttemptOutcome.ok (fRetry t) }

/-- Two retries per trial. -/
def cfgRetry : Config := { retries_per_trial := 2 }

/-- Two retries per trial, restarting the backend on unknown failures. -/
def cfgRetryRestart : Config := { retries_per_trial := 2, restart_on_fail := true }

/-- A backend whose prober rejects every URL. -/
def envNoProbe : Env :=
  { setupOk := true, probe := fun _ => false, attempt := fun _ _ _ => AttemptOutcome.err }

/-- A successful trial result with load time 5. -/
def resDup : LoadResult := { status := LoadStatus.success, url := "d", time := some 5 }

/-- A backend whose every attempt succeeds with load time 5. -/
def envDup : Env :=
  { setupOk := true, probe := fun _ => true, attempt := fun _ _ _ => AttemptOutcome.ok resDup }

/-- One trial per URL, no probing. -/
def cfgDup : Config := { num_trials := 1, check_protocol_availability := false }

/-- What one fragment of the engine may do to the state, seen from one URL
key `url`: it never touches `page_results`, never touches the load results
of other keys, appends at most `bound` results under `url`, keeps the
teardown count, the setup count and the restart counter in lockstep
(restarts are the only source of mid-run teardowns and setups), and only
appends teardown, setup or `P` events to the trace. -/
def Frame (url : String) (P : Event → Prop) (bound : Nat) (st st' : RunState) : Prop :=
  st'.page_results = st.page_results ∧
  (∀ x, x ≠ url → st'.load_results x = st.load_results x) ∧
  (∃ app, st'.load_results url = st.load_results url ++ app ∧ app.length ≤ bound) ∧
  (∃ d, st'.num_restarts = st.num_restarts + d ∧
        st'.trace.countP isTeardown = st.trace.countP isTeardown + d ∧
        st'.trace.countP isSetup = st.trace.countP isSetup + d) ∧
  (∃ tail, st'.trace = st.trace ++ tail ∧
        ∀ e ∈ tail, e = Event.teardown ∨ e = Event.setup ∨ P e)

/-- What processing one URL (normalized to `cu`) does to the state: other
keys are untouched, `cu` gets a summary and at most `bound` new load
results, teardown/setup counts move in lockstep with the restart counter,
and the trace only gains teardown, setup and `cu`-probe/attempt events. -/
def UrlFrame (cu : String) (bound : Nat) (st st' : RunState) : Prop :=
  (∀ x, x ≠ cu → st'.page_results x = st.page_results x) ∧
  (∀ x, x ≠ cu → st'.load_results x = st.load_results x) ∧
  (∃ pr, st'.page_results cu = some pr) ∧
  (∃ app, st'.load_results cu = st.load_results cu ++ app ∧ app.length ≤ bound) ∧
  (∃ d, st'.num_restarts = st.num_restarts + d ∧
        st'.trace.countP isTeardown = st.trace.countP isTeardown + d ∧
        st'.trace.countP isSetup = st.trace.countP isSetup + d) ∧
  (∃ tail, st'.trace = st.trace ++ tail ∧
        ∀ e ∈ tail, e = Event.teardown ∨ e = Event.setup ∨ e = Event.probeEv cu ∨
          ∃ i t, e = Event.attemptEv cu i t)

/-!  Lemmas about the result model. -/

/-- The `times` list of a summary holds one entry per `SUCCESS` result with
a truthy time, whatever the status argument. -/
theorem make_times_length (url : String) (sopt : Option PageStatus) (rs : List LoadResult) :
    (PageResult.make url sopt rs).times.length
      = rs.countP (fun r => r.status == LoadStatus.success && truthy r.time) := by
  simp only [PageResult.make, List.length_map, List.filter_filter,
    List.countP_eq_length_filter]
  congr 1
  apply List.filter_congr
  intro r _
  exact Bool.and_comm _ _

/-- A summary built without a status argument never reports
`FAILURE_NOT_ACCESSIBLE`. -/
theorem make_none_status_ne_notAccessible (url : String) (rs : List LoadResult) :
    (PageResult.make url none rs).status ≠ PageStatus.failureNotAccessible := by
  simp only [PageResult.make]
  split <;> simp_all <;> split <;> simp_all <;> split <;> simp_all

/-- C2 counterexample: on an empty URL list, `load_pages` still invokes
`_setup()` once (and `_teardown()` once) — there is no input-error check
that would keep setup from running. -/
theorem empty_input_still_runs_setup_cex :
    (Loader.load_pages {} envRaise []).trace.countP isSetup = 1 ∧
    (Loader.load_pages {} envRaise []).trace.countP isTeardown = 1 ∧
    (1 : Nat) ≠ 0 := by
  decide

/-- C2 (amended): `load_pages` performs no empty-input check: on an empty
URL list it invokes `_setup()` and then `_teardown()` exactly once each,
processes no URL and records no page result. -/
theorem empty_input_runs_setup_teardown (cfg : Config) (env : Env) :
    (Loader.load_pages cfg env []).trace = [Event.setup, Event.teardown] ∧
    (Loader.load_pages cfg env []).urls = [] ∧
    ∀ x, (Loader.load_pages cfg env []).page_results x = none := by
  unfold Loader.load_pages
  cases h : env.setupOk <;> simp [urlLoop, initState]

/-- C3 counterexample: a `PageResult` built from an empty list of load
results (every trial raised, so nothing was recorded) has status
`FAILURE_UNSET`, not `FAILURE_UNKNOWN`, although every element of the empty
list is vacuously a non-success. -/
theorem empty_results_status_unset_cex :
    (PageResult.make "u" none []).status = PageStatus.failureUnset ∧
    PageStatus.failureUnset ≠ PageStatus.failureUnknown ∧
    ∀ r ∈ ([] : List LoadResult), r.status ≠ LoadStatus.success := by
  refine ⟨rfl, by decide, ?_⟩
  intro r hr
  cases hr

/-- C3 (amended): for every non-empty list of load results aggregated
without a status override, the status is `FAILURE_UNKNOWN` when every
result is a non-success, `SUCCESS` when every result is a success,
`PARTIAL_SUCCESS` when mixed; and the status is `SUCCESS` iff every
recorded result is a success. -/
theorem status_derivation_nonempty (url : String) (rs : List LoadResult) (hne : rs ≠ []) :
    ((∀ r ∈ rs, r.status ≠ LoadStatus.success) →
        (PageResult.make url none rs).status = PageStatus.failureUnknown) ∧
    ((∀ r ∈ rs, r.status = LoadStatus.success) →
        (PageResult.make url none rs).status = PageStatus.success) ∧
    (((∃ r ∈ rs, r.status = LoadStatus.success) ∧ (∃ r ∈ rs, r.status ≠ LoadStatus.success)) →
        (PageResult.make url none rs).status = PageStatus.partialSuccess) ∧
    ((PageResult.make url none rs).status = PageStatus.success ↔
        ∀ r ∈ rs, r.status = LoadStatus.success) := by
  simp only [PageResult.make, List.isEmpty_eq_true, hne, if_false]
  constructor
  · intro hall
    have hf : rs.filter (fun r => r.status == LoadStatus.success) = [] := by
      apply List.filter_eq_nil.mpr
      intro r hr
      simpa using hall r hr
    simp [hf]
  constructor
  · intro hall
    have hf : rs.filter (fun r => r.status == LoadStatus.success) = rs := by
      apply List.filter_eq_self.mpr
      intro r hr
      simpa using hall r hr
    have ha : rs.any (fun r => r.status != LoadStatus.success) = false := by
      simp only [List.any_eq_false]
      intro r hr
      simpa using hall r hr
    simp [hf, ha, List.isEmpty_eq_true, hne]
  constructor
  · rintro ⟨⟨rs1, hrs1, hs1⟩, ⟨rs2, hrs2, hs2⟩⟩
    have hf : ¬(rs.filter (fun r => r.status == LoadStatus.success)).isEmpty = true := by
      simp only [List.isEmpty_eq_true, List.filter_eq_nil]
      push_neg
      exact ⟨rs1, hrs1, by simpa using hs1⟩
    have ha : rs.any (fun r => r.status != LoadStatus.success) = true := by
      simp only [List.any_eq_true]
      exact ⟨rs2, hrs2, by simpa using hs2⟩
    simp [hf, ha]
  · constructor
    · intro hst
      by_contra hnot
      push_neg at hnot
      obtain ⟨r0, hr0, hs0⟩ := hnot
      have ha : rs.any (fun r => r.status != LoadStatus.success) = true := by
        simp only [List.any_eq_true]
        exact ⟨r0, hr0, by simpa using hs0⟩
      simp only [ha, Bool.true_and] at hst
      by_cases hw : (rs.filter (fun r => r.status == LoadStatus.success)).isEmpty = true
      · simp [hw] at hst
      · simp [hw] at hst
    · intro hall
      have hf : rs.filter (fun r => r.status == LoadStatus.success) = rs := by
        apply List.filter_eq_self.mpr
        intro r hr
        simpa using hall r hr
      have ha : rs.any (fun r => r.status != LoadStatus.success) = false := by
        simp only [List.any_eq_false]
        intro r hr
        simpa using hall r hr
      simp [hf, ha, List.isEmpty_eq_true, hne]

/-- C3 witness: the amended derivation rule at a concrete mixed list. -/
theorem status_derivation_nonempty_witness :
    ((∀ r ∈ [resSucc, resFail], r.status ≠ LoadStatus.success) →
        (PageResult.make "u" none [resSucc, resFail]).status = PageStatus.failureUnknown) ∧
    ((∀ r ∈ [resSucc, resFail], r.status = LoadStatus.success) →
        (PageResult.make "u" none [resSucc, resFail]).status = PageStatus.success) ∧
    (((∃ r ∈ [resSucc, resFail], r.status = LoadStatus.success) ∧
      (∃ r ∈ [resSucc, resFail], r.status ≠ LoadStatus.success)) →
        (PageResult.make "u" none [resSucc, resFail]).status = PageStatus.partialSuccess) ∧
    ((PageResult.make "u" none [resSucc, resFail]).status = PageStatus.success ↔
        ∀ r ∈ [resSucc, resFail], r.status = LoadStatus.success) :=
  status_derivation_nonempty "u" [resSucc, resFail] (by decide)

/-- C9 counterexample: the character class `r'[/\;,><&*:%=+@!#^()|?^]'`
escapes the semicolon, so a backslash in the URL is not replaced with a
dash, although the claimed set lists the backslash. -/
theorem backslash_not_replaced_cex :
    Loader.sanitize_url "\\" = "\\" ∧ ("\\" : String) ≠ "-" := by
  constructor
  · rfl
  · decide

/-- C9 (amended): `_sanitize_url` keeps the URL's length and replaces
exactly the characters of the class — `/ ; , > < & * : % = + @ ! # ^ ( ) |
?` — with a dash, leaving every other character (the backslash included) in
place. -/
theorem sanitize_replaces_class_chars (url : String) :
    (Loader.sanitize_url url).data.length = url.data.length ∧
    (∀ (i : Nat) (c : Char), url.data[i]? = some c → c ∈ sanitizeChars →
        (Loader.sanitize_url url).data[i]? = some '-') ∧
    (∀ (i : Nat) (c : Char), url.data[i]? = some c → c ∉ sanitizeChars →
        (Loader.sanitize_url url).data[i]? = some c) ∧
    (';' ∈ sanitizeChars ∧ ('\\' : Char) ∉ sanitizeChars) := by
  refine ⟨by simp [Loader.sanitize_url], ?_, ?_, by decide, by decide⟩
  · intro i c hc hmem
    simp only [Loader.sanitize_url, List.getElem?_map, hc, Option.map_some]
    simp [hmem]
  · intro i c hc hmem
    simp only [Loader.sanitize_url, List.getElem?_map, hc, Option.map_some]
    simp [hmem]

/-!  The frame calculus: every piece of the engine's URL processing
satisfies a `Frame`, and frames compose. -/

theorem Frame.refl (url : String) (P : Event → Prop) (bound : Nat) (st : RunState) :
    Frame url P bound st st :=
  ⟨Eq.refl _, fun _ _ => Eq.refl _, ⟨[], by simp, Nat.zero_le _⟩,
   ⟨0, by simp, by simp, by simp⟩, ⟨[], by simp, by simp⟩⟩

theorem Frame.trans {url : String} {P : Event → Prop} {b1 b2 : Nat} {st st' st'' : RunState}
    (h1 : Frame url P b1 st st') (h2 : Frame url P b2 st' st'') :
    Frame url P (b1 + b2) st st'' := by
  obtain ⟨p1, l1, ⟨a1, ha1, hb1⟩, ⟨d1, hr1, ht1, hs1⟩, ⟨t1, htr1, he1⟩⟩ := h1
  obtain ⟨p2, l2, ⟨a2, ha2, hb2⟩, ⟨d2, hr2, ht2, hs2⟩, ⟨t2, htr2, he2⟩⟩ := h2
  refine ⟨p2.trans p1, fun x hx => (l2 x hx).trans (l1 x hx),
    ⟨a1 ++ a2, ?_, ?_⟩, ⟨d1 + d2, ?_, ?_, ?_⟩, ⟨t1 ++ t2, ?_, ?_⟩⟩
  · rw [ha2, ha1, List.append_assoc]
  · simp only [List.length_append]
    omega
  · omega
  · rw [ht2, ht1]
    omega
  · rw [hs2, hs1]
    omega
  · rw [htr2, htr1, List.append_assoc]
  · intro e he
    rcases List.mem_append.mp he with h | h
    · exact he1 e h
    · exact he2 e h

theorem Frame.mono {url : String} {P Q : Event → Prop} {b1 b2 : Nat} {st st' : RunState}
    (hb : b1 ≤ b2) (hP : ∀ e, P e → Q e) (h : Frame url P b1 st st') :
    Frame url Q b2 st st' := by
  obtain ⟨p1, l1, ⟨a1, ha1, hb1⟩, hc, ⟨t1, htr1, he1⟩⟩ := h
  refine ⟨p1, l1, ⟨a1, ha1, hb1.trans hb⟩, hc, ⟨t1, htr1, ?_⟩⟩
  intro e he
  rcases he1 e he with h | h | h
  · exact Or.inl h
  · exact Or.inr (Or.inl h)
  · exact Or.inr (Or.inr (hP e h))

theorem frame_traceAttempt (url : String) (P : Event → Prop) (bound : Nat) (st : RunState)
    (e : Event) (he : P e) (ht : isTeardown e = false) (hs : isSetup e = false) :
    Frame url P bound st { st with trace := st.trace ++ [e] } := by
  refine ⟨rfl, fun _ _ => rfl, ⟨[], by simp, Nat.zero_le _⟩,
    ⟨0, by simp, ?_, ?_⟩, ⟨[e], rfl, ?_⟩⟩
  · simp [List.countP_append, List.countP_cons, ht]
  · simp [List.countP_append, List.countP_cons, hs]
  · intro x hx
    rw [List.mem_singleton.mp hx]
    exact Or.inr (Or.inr he)

theorem frame_record (url : String) (P : Event → Prop) (bound : Nat) (st : RunState)
    (r : LoadResult) (hb : 1 ≤ bound) :
    Frame url P bound st (recordResult st url r) := by
  refine ⟨rfl, fun x hx => ?_, ⟨[r], ?_, hb⟩,
    ⟨0, by simp [recordResult], by simp [recordResult], by simp [recordResult]⟩,
    ⟨[], by simp [recordResult], by simp⟩⟩
  · simp [recordResult, hx]
  · simp [recordResult]

theorem frame_restart (url : String) (P : Event → Prop) (bound : Nat) (st : RunState) :
    Frame url P bound st
      { st with trace := st.trace ++ [Event.teardown, Event.setup],
                num_restarts := st.num_restarts + 1 } := by
  refine ⟨rfl, fun _ _ => rfl, ⟨[], by simp, Nat.zero_le _⟩,
    ⟨1, rfl, ?_, ?_⟩, ⟨[Event.teardown, Event.setup], rfl, ?_⟩⟩
  · simp [List.countP_append, List.countP_cons, isTeardown]
  · simp [List.countP_append, List.countP_cons, isSetup]
  · intro e he
    rcases List.mem_cons.mp he with h | h
    · exact Or.inl h
    · rcases List.mem_singleton.mp h with h
      exact Or.inr (Or.inl h)

/-- The retry loop of one trial touches the state only as a `Frame`:
in particular it records at most one result for the trial. -/
theorem tryLoop_frame (cfg : Config) (env : Env) (u i : Nat) (url : String) :
    ∀ fuel tryNo st,
      Frame url (fun e => ∃ t, e = Event.attemptEv url i t) 1 st
        (tryLoop cfg env u i url fuel tryNo st) := by
  intro fuel
  induction fuel with
  | zero =>
    intro tryNo st
    exact Frame.refl url _ 1 st
  | succ n ih =>
    intro tryNo st
    have h1 : Frame url (fun e => ∃ t, e = Event.attemptEv url i t) 0 st
        { st with trace := st.trace ++ [Event.attemptEv url i tryNo] } :=
      frame_traceAttempt url _ 0 st _ ⟨tryNo, rfl⟩ rfl rfl
    simp only [tryLoop]
    cases hA : env.attempt u i tryNo with
    | err =>
      exact h1.mono (by omega) (fun e he => he)
    | ok r =>
      by_cases hs : (r.status == LoadStatus.success) = true
      · simp only [hs, if_true]
        exact (h1.trans (frame_record url _ 1 _ r le_rfl)).mono (by omega) (fun e he => he)
      · simp only [hs, if_false]
        by_cases hn : n = 0
        · subst hn
          simp only [Nat.zero_eq, beq_self_eq_true, if_true, tryLoop]
          have h2 := frame_record url (fun e => ∃ t, e = Event.attemptEv url i t) 1
            { st with trace := st.trace ++ [Event.attemptEv url i tryNo] } r le_rfl
          by_cases hrf : (r.status == LoadStatus.failureUnknown && cfg.restart_on_fail) = true
          · simp only [hrf, if_true]
            exact ((h1.trans h2).trans (frame_restart url _ 0 _)).mono (by omega) (fun e he => he)
          · simp only [hrf, if_false]
            exact (h1.trans h2).mono (by omega) (fun e he => he)
        · have hn' : (n == 0) = false := by
            simp [hn]
          simp only [hn', if_false]
          by_cases hrf : (r.status == LoadStatus.failureUnknown && cfg.restart_on_fail) = true
          · simp only [hrf, if_true]
            exact ((h1.trans (frame_restart url _ 0 _)).trans (ih _ _)).mono
              (by omega) (fun e he => he)
          · simp only [hrf, if_false]
            exact (h1.trans (ih _ _)).mono (by omega) (fun e he => he)

/-- The trial loop records at most one result per remaining trial. -/
theorem trialLoop_frame (cfg : Config) (env : Env) (u : Nat) (url : String) :
    ∀ fuel i st,
      Frame url (fun e => ∃ i' t, e = Event.attemptEv url i' t) fuel st
        (trialLoop cfg env u url i fuel st) := by
  intro fuel
  induction fuel with
  | zero =>
    intro i st
    exact Frame.refl url _ 0 st
  | succ n ih =>
    intro i st
    have h1 : Frame url (fun e => ∃ i' t, e = Event.attemptEv url i' t) 1 st
        (tryLoop cfg env u i url (cfg.retries_per_trial + 1) 1 st) :=
      (tryLoop_frame cfg env u i url (cfg.retries_per_trial + 1) 1 st).mono
        (le_refl 1) (fun e he => by obtain ⟨t, ht⟩ := he; exact ⟨i, t, ht⟩)
    exact (h1.trans (ih (i + 1) _)).mono (by omega) (fun e he => he)

/-- Storing the final summary after a `Frame`-shaped run of the trials
yields a `UrlFrame`. -/
theorem frame_finishUrl {cu : String} {P : Event → Prop} {bound : Nat} {st st' : RunState}
    (h : Frame cu P bound st st')
    (hP : ∀ e, P e → e = Event.probeEv cu ∨ ∃ i t, e = Event.attemptEv cu i t) :
    UrlFrame cu bound st (finishUrl st' cu) := by
  obtain ⟨p1, l1, ⟨a1, ha1, hb1⟩, hcnt, ⟨t1, htr1, he1⟩⟩ := h
  refine ⟨?_, ?_, ⟨PageResult.make cu none (st'.load_results cu), ?_⟩,
    ⟨a1, ha1, hb1⟩, hcnt, ⟨t1, htr1, ?_⟩⟩
  · intro x hx
    have : st'.page_results x = st.page_results x := by rw [p1]
    simpa [finishUrl, hx] using this
  · intro x hx
    exact l1 x hx
  · simp [finishUrl]
  · intro e he
    rcases he1 e he with h | h | h
    · exact Or.inl h
    · exact Or.inr (Or.inl h)
    · exact Or.inr (Or.inr (hP e h))

/-- The gate branch of `urlStep`: protocol checking enabled and the prober
says no — the summary is `FAILURE_NOT_ACCESSIBLE`, no load result is
recorded, no restart happens, and the only call made is the probe. -/
theorem urlStep_gate (cfg : Config) (env : Env) (u : Nat) (raw : String) (st : RunState)
    (hc : cfg.check_protocol_availability = true) (hp : env.probe u = false) :
    (urlStep cfg env u raw st).page_results (Loader.check_url raw)
        = some (PageResult.make (Loader.check_url raw)
            (some PageStatus.failureNotAccessible) []) ∧
    (∀ x, x ≠ Loader.check_url raw →
        (urlStep cfg env u raw st).page_results x = st.page_results x) ∧
    (urlStep cfg env u raw st).load_results = st.load_results ∧
    (urlStep cfg env u raw st).num_restarts = st.num_restarts ∧
    (urlStep cfg env u raw st).trace
        = st.trace ++ [Event.probeEv (Loader.check_url raw)] := by
  refine ⟨?_, ?_, ?_, ?_, ?_⟩ <;>
    simp [urlStep, hc, hp]
  intro x hx
  simp [hx]

/-- The trial branch of `urlStep` (checking off, or the prober says yes):
the summary stored under the normalized URL is built, with no status
override, from exactly the load results accumulated under that URL. -/
theorem urlStep_noGate (cfg : Config) (env : Env) (u : Nat) (raw : String) (st : RunState)
    (h : cfg.check_protocol_availability = false ∨ env.probe u = true) :
    ∃ app,
      (urlStep cfg env u raw st).load_results (Loader.check_url raw)
          = st.load_results (Loader.check_url raw) ++ app ∧
      app.length ≤ cfg.num_trials ∧
      (urlStep cfg env u raw st).page_results (Loader.check_url raw)
          = some (PageResult.make (Loader.check_url raw) none
              (st.load_results (Loader.check_url raw) ++ app)) := by
  rcases h with hc | hp
  · have hstep : urlStep cfg env u raw st
        = finishUrl (trialLoop cfg env u (Loader.check_url raw) 0 cfg.num_trials st)
            (Loader.check_url raw) := by
      simp [urlStep, hc]
    obtain ⟨_, _, ⟨app, ha, hb⟩, _, _⟩ :=
      trialLoop_frame cfg env u (Loader.check_url raw) cfg.num_trials 0 st
    refine ⟨app, ?_, hb, ?_⟩ <;>
      simp [hstep, finishUrl, ha]
  · by_cases hc : cfg.check_protocol_availability = true
    · have hstep : urlStep cfg env u raw st
          = finishUrl (trialLoop cfg env u (Loader.check_url raw) 0 cfg.num_trials
              { st with trace := st.trace ++ [Event.probeEv (Loader.check_url raw)] })
              (Loader.check_url raw) := by
        simp [urlStep, hc, hp]
      obtain ⟨_, _, ⟨app, ha, hb⟩, _, _⟩ :=
        trialLoop_frame cfg env u (Loader.check_url raw) cfg.num_trials 0
          { st with trace := st.trace ++ [Event.probeEv (Loader.check_url raw)] }
      refine ⟨app, ?_, hb, ?_⟩ <;>
        simp [hstep, finishUrl, ha]
    · have hc' : cfg.check_protocol_availability = false := by
        cases h : cfg.check_protocol_availability
        · rfl
        · exact absurd h hc
      have hstep : urlStep cfg env u raw st
          = finishUrl (trialLoop cfg env u (Loader.check_url raw) 0 cfg.num_trials st)
              (Loader.check_url raw) := by
        simp [urlStep, hc']
      obtain ⟨_, _, ⟨app, ha, hb⟩, _, _⟩ :=
        trialLoop_frame cfg env u (Loader.check_url raw) cfg.num_trials 0 st
      refine ⟨app, ?_, hb, ?_⟩ <;>
        simp [hstep, finishUrl, ha]

/-- Each URL step is a `UrlFrame` on its normalized URL. -/
theorem urlStep_urlFrame (cfg : Config) (env : Env) (u : Nat) (raw : String) (st : RunState) :
    UrlFrame (Loader.check_url raw) cfg.num_trials st (urlStep cfg env u raw st) := by
  by_cases hc : cfg.check_protocol_availability = true
  · by_cases hp : env.probe u = true
    · have h1 : Frame (Loader.check_url raw)
          (fun e => e = Event.probeEv (Loader.check_url raw) ∨
            ∃ i t, e = Event.attemptEv (Loader.check_url raw) i t) 0 st
          { st with trace := st.trace ++ [Event.probeEv (Loader.check_url raw)] } :=
        frame_traceAttempt _ _ 0 st _ (Or.inl rfl) rfl rfl
      have h2 : Frame (Loader.check_url raw)
          (fun e => e = Event.probeEv (Loader.check_url raw) ∨
            ∃ i t, e = Event.attemptEv (Loader.check_url raw) i t) cfg.num_trials
          { st with trace := st.trace ++ [Event.probeEv (Loader.check_url raw)] }
          (trialLoop cfg env u (Loader.check_url raw) 0 cfg.num_trials
            { st with trace := st.trace ++ [Event.probeEv (Loader.check_url raw)] }) :=
        (trialLoop_frame cfg env u (Loader.check_url raw) cfg.num_trials 0
          { st with trace := st.trace ++ [Event.probeEv (Loader.check_url raw)] }).mono
          (le_refl _) (fun e he => Or.inr he)
      have hstep : urlStep cfg env u raw st
          = finishUrl (trialLoop cfg env u (Loader.check_url raw) 0 cfg.num_trials
              { st with trace := st.trace ++ [Event.probeEv (Loader.check_url raw)] })
              (Loader.check_url raw) := by
        simp [urlStep, hc, hp]
      rw [hstep]
      exact frame_finishUrl ((h1.trans h2).mono (by omega) (fun e he => he))
        (fun e he => he)
    · have hp' : env.probe u = false := by
        cases h : env.probe u
        · rfl
        · exact absurd h hp
      obtain ⟨hpg, hpo, hld, hnr, htr⟩ := urlStep_gate cfg env u raw st hc hp'
      refine ⟨hpo, fun x _ => by rw [hld], ⟨_, hpg⟩, ⟨[], by rw [hld]; simp, Nat.zero_le _⟩,
        ⟨0, by omega, ?_, ?_⟩, ⟨[Event.probeEv (Loader.check_url raw)], htr, ?_⟩⟩
      · rw [htr]
        simp [List.countP_append, List.countP_cons, isTeardown]
      · rw [htr]
        simp [List.countP_append, List.countP_cons, isSetup]
      · intro e he
        rw [List.mem_singleton.mp he]
        exact Or.inr (Or.inr (Or.inl rfl))
  · have hc' : cfg.check_protocol_availability = false := by
      cases h : cfg.check_protocol_availability
      · rfl
      · exact absurd h hc
    have hstep : urlStep cfg env u raw st
        = finishUrl (trialLoop cfg env u (Loader.check_url raw) 0 cfg.num_trials st)
            (Loader.check_url raw) := by
      simp [urlStep, hc']
    rw [hstep]
    exact frame_finishUrl
      ((trialLoop_frame cfg env u (Loader.check_url raw) cfg.num_trials 0 st).mono
        (le_refl _) (fun e he => Or.inr he))
      (fun e he => he)

/-- What the URL loop guarantees: keys outside the processed URLs are
untouched, existing summaries stay present, every processed URL ends up
with a summary, teardown/setup counts move in lockstep with the restart
counter, and the trace only gains teardown, setup and probe/attempt events
of the processed URLs. -/
theorem urlLoop_frame (cfg : Config) (env : Env) :
    ∀ (l : List String) (u : Nat) (st : RunState),
      (∀ x, x ∉ l.map Loader.check_url →
          (urlLoop cfg env u l st).page_results x = st.page_results x ∧
          (urlLoop cfg env u l st).load_results x = st.load_results x) ∧
      (∀ x pr, st.page_results x = some pr →
          ∃ pr', (urlLoop cfg env u l st).page_results x = some pr') ∧
      (∀ raw ∈ l, ∃ pr,
          (urlLoop cfg env u l st).page_results (Loader.check_url raw) = some pr) ∧
      (∃ d, (urlLoop cfg env u l st).num_restarts = st.num_restarts + d ∧
            (urlLoop cfg env u l st).trace.countP isTeardown
              = st.trace.countP isTeardown + d ∧
            (urlLoop cfg env u l st).trace.countP isSetup
              = st.trace.countP isSetup + d) ∧
      (∃ tail, (urlLoop cfg env u l st).trace = st.trace ++ tail ∧
          ∀ e ∈ tail, e = Event.teardown ∨ e = Event.setup ∨
            ∃ cu, cu ∈ l.map Loader.check_url ∧
              (e = Event.probeEv cu ∨ ∃ i t, e = Event.attemptEv cu i t)) := by
  intro l
  induction l with
  | nil =>
    intro u st
    refine ⟨fun x _ => ⟨rfl, rfl⟩, fun x pr h => ⟨pr, h⟩, fun raw h => absurd h (by simp),
      ⟨0, by simp [urlLoop], by simp [urlLoop], by simp [urlLoop]⟩,
      ⟨[], by simp [urlLoop], by simp⟩⟩
  | cons raw rest ih =>
    intro u st
    obtain ⟨spo, slo, spg, ⟨sapp, sha, _⟩, ⟨d1, sr1, st1, ss1⟩, ⟨tl1, str1, sev1⟩⟩ :=
      urlStep_urlFrame cfg env u raw st
    obtain ⟨ipo, isome, iest, ⟨d2, ir2, it2, is2⟩, ⟨tl2, itr2, iev2⟩⟩ :=
      ih (u + 1) (urlStep cfg env u raw st)
    have hloop : urlLoop cfg env u (raw :: rest) st
        = urlLoop cfg env (u + 1) rest (urlStep cfg env u raw st) := rfl
    rw [hloop]
    refine ⟨?_, ?_, ?_, ⟨d1 + d2, by omega, ?_, ?_⟩, ⟨tl1 ++ tl2, ?_, ?_⟩⟩
    · intro x hx
      simp only [List.map_cons, List.mem_cons, not_or] at hx
      obtain ⟨hx1, hx2⟩ := hx
      obtain ⟨hp, hl⟩ := ipo x hx2
      exact ⟨hp.trans (spo x hx1), hl.trans (slo x hx1)⟩
    · intro x pr hx
      by_cases hcu : x = Loader.check_url raw
      · obtain ⟨pr1, hpr1⟩ := spg
        exact isome x pr1 (by rw [hcu]; exact hpr1)
      · exact isome x pr ((spo x hcu).trans hx)
    · intro raw' hraw'
      rcases List.mem_cons.mp hraw' with h | h
      · subst h
        obtain ⟨pr1, hpr1⟩ := spg
        exact isome _ pr1 hpr1
      · exact iest raw' h
    · rw [it2, st1]
      omega
    · rw [is2, ss1]
      omega
    · rw [itr2, str1, List.append_assoc]
    · intro e he
      rcases List.mem_append.mp he with h | h
      · rcases sev1 e h with h1 | h1 | h1 | h1
        · exact Or.inl h1
        · exact Or.inr (Or.inl h1)
        · exact Or.inr (Or.inr ⟨Loader.check_url raw, by simp, Or.inl h1⟩)
        · exact Or.inr (Or.inr ⟨Loader.check_url raw, by simp, Or.inr h1⟩)
      · rcases iev2 e h with h1 | h1 | ⟨cu, hcu, h1⟩
        · exact Or.inl h1
        · exact Or.inr (Or.inl h1)
        · refine Or.inr (Or.inr ⟨cu, ?_, h1⟩)
          simp only [List.map_cons, List.mem_cons]
          exact Or.inr hcu

/-- Splitting the URL loop at a list position. -/
theorem urlLoop_append (cfg : Config) (env : Env) :
    ∀ (l1 l2 : List String) (u : Nat) (st : RunState),
      urlLoop cfg env u (l1 ++ l2) st
        = urlLoop cfg env (u + l1.length) l2 (urlLoop cfg env u l1 st) := by
  intro l1
  induction l1 with
  | nil =>
    intro l2 u st
    simp [urlLoop]
  | cons raw rest ih =>
    intro l2 u st
    have : u + (rest.length + 1) = u + 1 + rest.length := by omega
    simp only [List.cons_append, urlLoop, List.length_cons, this]
    exact ih l2 (u + 1) (urlStep cfg env u raw st)

/-- C1: whenever the initial setup succeeds, `load_pages` leaves exactly
one summary in `page_results` for every submitted URL (keyed by its
normalized form) — even for URLs the prober rejected and URLs whose every
trial raised; per-trial errors are caught inside the loop and never keep a
later URL (or the URL itself) from receiving its summary, since this holds
for every oracle, raising attempts included. -/
theorem every_submitted_url_has_summary (cfg : Config) (env : Env)
    (urls : List String) (raw : String)
    (hs : env.setupOk = true) (hmem : raw ∈ urls) :
    ∃ pr, (Loader.load_pages cfg env urls).page_results (Loader.check_url raw) = some pr := by
  have h := (urlLoop_frame cfg env urls 0 { initState with trace := [Event.setup] }).2.2.1
    raw hmem
  obtain ⟨pr, hpr⟩ := h
  refine ⟨pr, ?_⟩
  simp only [Loader.load_pages, hs, if_true]
  exact hpr

/-- C1 witness: a run whose every attempt raises still produces a summary
for the first of its two URLs. -/
theorem every_submitted_url_has_summary_witness :
    ∃ pr, (Loader.load_pages {} envRaise ["a", "b"]).page_results
        (Loader.check_url "a") = some pr :=
  every_submitted_url_has_summary {} envRaise ["a", "b"] "a" rfl (by simp)

/-- C7: when `_setup()` returns false the run processes no URL, records no
summary and still tears down exactly once; and on every run (every oracle,
every exit path) the teardown count equals one final teardown plus one
teardown per backend restart — the `finally` teardown always runs exactly
once. -/
theorem setup_failure_aborts_teardown_once (cfg : Config) (env : Env)
    (urls : List String) :
    (env.setupOk = false →
        (Loader.load_pages cfg env urls).trace = [Event.setup, Event.teardown] ∧
        (∀ x, (Loader.load_pages cfg env urls).page_results x = none) ∧
        (Loader.load_pages cfg env urls).urls = [] ∧
        (Loader.load_pages cfg env urls).num_restarts = 0) ∧
    (Loader.load_pages cfg env urls).trace.countP isTeardown
        = 1 + (Loader.load_pages cfg env urls).num_restarts := by
  constructor
  · intro hfalse
    simp [Loader.load_pages, hfalse, initState]
  · cases hS : env.setupOk
    · simp [Loader.load_pages, hS, initState, List.countP_append, List.countP_cons,
        isTeardown]
    · obtain ⟨_, _, _, ⟨d, hr, ht, _⟩, _⟩ :=
        urlLoop_frame cfg env urls 0 { initState with trace := [Event.setup] }
      have htd0 : List.countP isTeardown [Event.setup] = 0 := by
        simp [List.countP_cons, isTeardown]
      simp only [Loader.load_pages, hS, if_true, List.countP_append]
      rw [ht]
      simp only [initState] at hr ⊢
      rw [hr, htd0]
      simp [List.countP_cons, isTeardown]
      omega

/-- Splitting a run at the only occurrence of a URL: what `load_pages`
finally holds under that URL's key is what its own `urlStep` left there,
and that step started from an empty slate for the key. -/
theorem load_pages_split (cfg : Config) (env : Env) (l1 l2 : List String) (raw : String)
    (hs : env.setupOk = true)
    (hnd1 : Loader.check_url raw ∉ l1.map Loader.check_url)
    (hnd2 : Loader.check_url raw ∉ l2.map Loader.check_url) :
    (Loader.load_pages cfg env (l1 ++ raw :: l2)).page_results (Loader.check_url raw)
        = (urlStep cfg env l1.length raw
            (urlLoop cfg env 0 l1 { initState with trace := [Event.setup] })).page_results
            (Loader.check_url raw) ∧
    (Loader.load_pages cfg env (l1 ++ raw :: l2)).load_results (Loader.check_url raw)
        = (urlStep cfg env l1.length raw
            (urlLoop cfg env 0 l1 { initState with trace := [Event.setup] })).load_results
            (Loader.check_url raw) ∧
    (urlLoop cfg env 0 l1 { initState with trace := [Event.setup] }).page_results
        (Loader.check_url raw) = none ∧
    (urlLoop cfg env 0 l1 { initState with trace := [Event.setup] }).load_results
        (Loader.check_url raw) = [] := by
  have hA := (urlLoop_frame cfg env l1 0 { initState with trace := [Event.setup] }).1
    (Loader.check_url raw) hnd1
  have hloop : urlLoop cfg env 0 (l1 ++ raw :: l2) { initState with trace := [Event.setup] }
      = urlLoop cfg env (l1.length + 1) l2
          (urlStep cfg env l1.length raw
            (urlLoop cfg env 0 l1 { initState with trace := [Event.setup] })) := by
    rw [urlLoop_append]
    simp [urlLoop]
  have hC := (urlLoop_frame cfg env l2 (l1.length + 1)
      (urlStep cfg env l1.length raw
        (urlLoop cfg env 0 l1 { initState with trace := [Event.setup] }))).1
    (Loader.check_url raw) hnd2
  refine ⟨?_, ?_, ?_, ?_⟩
  · simp only [Loader.load_pages, hs, if_true, hloop]
    exact hC.1
  · simp only [Loader.load_pages, hs, if_true, hloop]
    exact hC.2
  · exact hA.1
  · exact hA.2

/-- C8: with no duplicate normalized URL in the input and setup succeeding,
a URL's final summary has status `FAILURE_NOT_ACCESSIBLE` iff protocol
checking is enabled and the prober rejected it; in that case the backend is
never invoked for the URL (no attempt event, no recorded result) and its
step leaves the restart counter unchanged. -/
theorem not_accessible_iff_probe_false (cfg : Config) (env : Env)
    (urls : List String) (k : Nat) (raw : String)
    (hnd : (urls.map Loader.check_url).Nodup)
    (hs : env.setupOk = true)
    (hk : urls[k]? = some raw) :
    ((((Loader.load_pages cfg env urls).page_results (Loader.check_url raw)).map
        PageResult.status = some PageStatus.failureNotAccessible)
      ↔ (cfg.check_protocol_availability = true ∧ env.probe k = false)) ∧
    ((cfg.check_protocol_availability = true ∧ env.probe k = false) →
      (∀ i t, Event.attemptEv (Loader.check_url raw) i t
          ∉ (Loader.load_pages cfg env urls).trace) ∧
      (Loader.load_pages cfg env urls).load_results (Loader.check_url raw) = [] ∧
      (∀ st, (urlStep cfg env k raw st).num_restarts = st.num_restarts)) := by
  have hk_lt : k < urls.length := by
    by_contra hge
    rw [List.getElem?_eq_none (Nat.le_of_not_lt hge)] at hk
    cases hk
  have hk_eq : urls[k] = raw := by
    have := List.getElem?_eq_getElem hk_lt
    rw [hk] at this
    exact (Option.some_injective _ this.symm)
  have hsplit : urls = urls.take k ++ raw :: urls.drop (k + 1) := by
    conv in raw :: _ => rw [← hk_eq]
    rw [← List.drop_eq_getElem_cons hk_lt, List.take_append_drop]
  have hlen : (urls.take k).length = k := by
    simp [List.length_take, Nat.min_eq_left (Nat.le_of_lt hk_lt)]
  have hnd' : ((urls.take k).map Loader.check_url
      ++ Loader.check_url raw :: (urls.drop (k + 1)).map Loader.check_url).Nodup := by
    have := hnd
    rw [hsplit] at this
    simpa using this
  have hnd1 : Loader.check_url raw ∉ (urls.take k).map Loader.check_url := by
    obtain ⟨_, _, hdisj⟩ := List.nodup_append.mp hnd'
    intro hmem
    exact hdisj hmem (List.mem_cons_self _ _)
  have hnd2 : Loader.check_url raw ∉ (urls.drop (k + 1)).map Loader.check_url := by
    obtain ⟨_, hcons, _⟩ := List.nodup_append.mp hnd'
    exact (List.nodup_cons.mp hcons).1
  obtain ⟨hpg, hld, hA_pg, hA_ld⟩ :=
    load_pages_split cfg env (urls.take k) (urls.drop (k + 1)) raw hs hnd1 hnd2
  rw [hsplit]
  rw [← hsplit] at hpg hld
  rw [hlen] at hpg hld
  rw [← hsplit]
  constructor
  · constructor
    · intro hNA
      by_cases hc : cfg.check_protocol_availability = true
      · by_cases hp : env.probe k = true
        · exfalso
          obtain ⟨app, _, _, hpage⟩ := urlStep_noGate cfg env k raw
            (urlLoop cfg env 0 (urls.take k) { initState with trace := [Event.setup] })
            (Or.inr hp)
          rw [hpg, hpage] at hNA
          simp only [Option.map_some] at hNA
          exact make_none_status_ne_notAccessible _ _ (Option.some_injective _ hNA)
        · have hp' : env.probe k = false := by
            cases h : env.probe k
            · rfl
            · exact absurd h hp
          exact ⟨hc, hp'⟩
      · exfalso
        have hc' : cfg.check_protocol_availability = false := by
          cases h : cfg.check_protocol_availability
          · rfl
          · exact absurd h hc
        obtain ⟨app, _, _, hpage⟩ := urlStep_noGate cfg env k raw
          (urlLoop cfg env 0 (urls.take k) { initState with trace := [Event.setup] })
          (Or.inl hc')
        rw [hpg, hpage] at hNA
        simp only [Option.map_some] at hNA
        exact make_none_status_ne_notAccessible _ _ (Option.some_injective _ hNA)
    · rintro ⟨hc, hp⟩
      obtain ⟨hpage, _, _, _, _⟩ := urlStep_gate cfg env k raw
        (urlLoop cfg env 0 (urls.take k) { initState with trace := [Event.setup] }) hc hp
      rw [hpg, hpage]
      rfl
  · rintro ⟨hc, hp⟩
    obtain ⟨hpage, _, hldB, hnr, htrB⟩ := urlStep_gate cfg env k raw
      (urlLoop cfg env 0 (urls.take k) { initState with trace := [Event.setup] }) hc hp
    refine ⟨?_, ?_, ?_⟩
    · intro i t hmem
      obtain ⟨_, _, _, _, ⟨tailA, htrA, hevA⟩⟩ :=
        urlLoop_frame cfg env (urls.take k) 0 { initState with trace := [Event.setup] }
      obtain ⟨_, _, _, _, ⟨tailC, htrC, hevC⟩⟩ :=
        urlLoop_frame cfg env (urls.drop (k + 1)) (k + 1)
          (urlStep cfg env k raw
            (urlLoop cfg env 0 (urls.take k) { initState with trace := [Event.setup] }))
      have hfinal : (Loader.load_pages cfg env urls).trace
          = ((([Event.setup] ++ tailA) ++ [Event.probeEv (Loader.check_url raw)]) ++ tailC)
            ++ [Event.teardown] := by
        conv in Loader.load_pages cfg env urls => rw [hsplit]
        simp only [Loader.load_pages, hs, if_true]
        have hloop : urlLoop cfg env 0 (urls.take k ++ raw :: urls.drop (k + 1))
            { initState with trace := [Event.setup] }
            = urlLoop cfg env (k + 1) (urls.drop (k + 1))
                (urlStep cfg env k raw
                  (urlLoop cfg env 0 (urls.take k) { initState with trace := [Event.setup] })) := by
          rw [urlLoop_append]
          simp [urlLoop, hlen]
        rw [hloop, htrC, htrB, htrA]
      rw [hfinal] at hmem
      simp only [List.mem_append] at hmem
      rcases hmem with (((h | h) | h) | h) | h
      · simp at h
      · rcases hevA _ h with h1 | h1 | ⟨cu, hcu, h1 | ⟨i', t', h1⟩⟩
        · simp at h1
        · simp at h1
        · simp at h1
        · injection h1 with h2 h3 h4
          rw [← h2] at hcu
          exact hnd1 hcu
      · simp at h
      · rcases hevC _ h with h1 | h1 | ⟨cu, hcu, h1 | ⟨i', t', h1⟩⟩
        · simp at h1
        · simp at h1
        · simp at h1
        · injection h1 with h2 h3 h4
          rw [← h2] at hcu
          exact hnd2 hcu
      · simp at h
    · rw [hld, hldB, hA_ld]
    · intro st
      obtain ⟨_, _, _, hnr', _⟩ := urlStep_gate cfg env k raw st hc hp
      exact hnr'

/-- C8 witness: a one-URL run whose prober rejects the URL. -/
theorem not_accessible_iff_probe_false_witness :
    ((((Loader.load_pages {} envNoProbe ["a"]).page_results (Loader.check_url "a")).map
        PageResult.status = some PageStatus.failureNotAccessible)
      ↔ (Config.check_protocol_availability {} = true ∧ envNoProbe.probe 0 = false)) ∧
    ((Config.check_protocol_availability {} = true ∧ envNoProbe.probe 0 = false) →
      (∀ i t, Event.attemptEv (Loader.check_url "a") i t
          ∉ (Loader.load_pages {} envNoProbe ["a"]).trace) ∧
      (Loader.load_pages {} envNoProbe ["a"]).load_results (Loader.check_url "a") = [] ∧
      (∀ st, (urlStep {} envNoProbe 0 "a" st).num_restarts = st.num_restarts)) :=
  not_accessible_iff_probe_false {} envNoProbe ["a"] 0 "a" (by simp) rfl rfl

/-- C4 counterexample: a run against a ChromeLoader-style backend (its
successes carry no load time) records one `SUCCESS` trial result while the
summary's `times` list stays empty — the count of entries in `times` does
not equal the count of `SUCCESS` trial results. -/
theorem success_without_time_not_counted_cex :
    ((Loader.load_pages cfgChrome envChrome ["http://a"]).load_results "http://a").countP
        (fun r => r.status == LoadStatus.success) = 1 ∧
    ((Loader.load_pages cfgChrome envChrome ["http://a"]).page_results "http://a").map
        (fun pr => pr.times.length) = some 0 ∧
    (0 : Nat) ≠ 1 := by
  decide

/-- C4 (amended): with no duplicate normalized URL in the input, a URL's
summary holds one `times` entry per recorded `SUCCESS` result carrying a
truthy load time (not per `SUCCESS` result), and never more than
`num_trials` entries. -/
theorem times_counts_timed_successes (cfg : Config) (env : Env)
    (urls : List String) (raw : String) (pr : PageResult)
    (hnd : (urls.map Loader.check_url).Nodup)
    (hmem : raw ∈ urls)
    (hpr : (Loader.load_pages cfg env urls).page_results (Loader.check_url raw) = some pr) :
    pr.times.length
        = ((Loader.load_pages cfg env urls).load_results (Loader.check_url raw)).countP
            (fun r => r.status == LoadStatus.success && truthy r.time) ∧
    pr.times.length ≤ cfg.num_trials := by
  cases hS : env.setupOk
  · exfalso
    simp [Loader.load_pages, hS, initState] at hpr
  · obtain ⟨l1, l2, hsplit⟩ := List.append_of_mem hmem
    subst hsplit
    rw [List.map_append, List.map_cons] at hnd
    obtain ⟨_, hcons, hdisj⟩ := List.nodup_append.mp hnd
    have hnd1 : Loader.check_url raw ∉ l1.map Loader.check_url :=
      fun hm => hdisj hm (List.mem_cons_self _ _)
    have hnd2 : Loader.check_url raw ∉ l2.map Loader.check_url :=
      (List.nodup_cons.mp hcons).1
    obtain ⟨hpg, hld, hA_pg, hA_ld⟩ := load_pages_split cfg env l1 l2 raw hS hnd1 hnd2
    rw [hpg] at hpr
    by_cases hc : cfg.check_protocol_availability = true
    · by_cases hp : env.probe l1.length = true
      · obtain ⟨app, happ, hlen, hpage⟩ := urlStep_noGate cfg env l1.length raw
          (urlLoop cfg env 0 l1 { initState with trace := [Event.setup] })
          (Or.inr hp)
        rw [hpage, hA_ld] at hpr
        simp only [List.nil_append] at hpr
        have hpr' : pr = PageResult.make (Loader.check_url raw) none app :=
          (Option.some_injective _ hpr).symm
        rw [hld, happ, hA_ld]
        simp only [List.nil_append]
        constructor
        · rw [hpr', make_times_length]
        · calc pr.times.length
              = app.countP (fun r => r.status == LoadStatus.success && truthy r.time) := by
                rw [hpr', make_times_length]
            _ ≤ app.length := List.countP_le_length _
            _ ≤ cfg.num_trials := hlen
      · have hp' : env.probe l1.length = false := by
          cases h : env.probe l1.length
          · rfl
          · exact absurd h hp
        obtain ⟨hpage, _, hldB, _, _⟩ := urlStep_gate cfg env l1.length raw
          (urlLoop cfg env 0 l1 { initState with trace := [Event.setup] }) hc hp'
        rw [hpage] at hpr
        have hpr' : pr = PageResult.make (Loader.check_url raw)
            (some PageStatus.failureNotAccessible) [] :=
          (Option.some_injective _ hpr).symm
        rw [hld, hldB, hA_ld, hpr']
        exact ⟨rfl, Nat.zero_le _⟩
    · have hc' : cfg.check_protocol_availability = false := by
        cases h : cfg.check_protocol_availability
        · rfl
        · exact absurd h hc
      obtain ⟨app, happ, hlen, hpage⟩ := urlStep_noGate cfg env l1.length raw
        (urlLoop cfg env 0 l1 { initState with trace := [Event.setup] })
        (Or.inl hc')
      rw [hpage, hA_ld] at hpr
      simp only [List.nil_append] at hpr
      have hpr' : pr = PageResult.make (Loader.check_url raw) none app :=
        (Option.some_injective _ hpr).symm
      rw [hld, happ, hA_ld]
      simp only [List.nil_append]
      constructor
      · rw [hpr', make_times_length]
      · calc pr.times.length
            = app.countP (fun r => r.status == LoadStatus.success && truthy r.time) := by
              rw [hpr', make_times_length]
          _ ≤ app.length := List.countP_le_length _
          _ ≤ cfg.num_trials := hlen

/-- Each element of `failuresBefore` is the result of a try in the window. -/
theorem failuresBefore_mem (f : Nat → LoadResult) :
    ∀ fuel t r, r ∈ failuresBefore f t fuel → ∃ j, t ≤ j ∧ j < t + fuel ∧ r = f j := by
  intro fuel
  induction fuel with
  | zero =>
    intro t r hr
    simp [failuresBefore] at hr
  | succ n ih =>
    intro t r hr
    by_cases hs : ((f t).status == LoadStatus.success) = true
    · simp [failuresBefore, hs] at hr
    · have hsf : ((f t).status == LoadStatus.success) = false := by
        simpa using hs
      simp only [failuresBefore, hsf, Bool.false_eq_true, if_false] at hr
      rcases List.mem_cons.mp hr with h | h
      · exact ⟨t, le_refl t, by omega, h⟩
      · obtain ⟨j, hj1, hj2, hj3⟩ := ih (t + 1) r h
        exact ⟨j, by omega, by omega, hj3⟩

/-- Restart bookkeeping of the retry loop when no attempt raises: the
restart counter, the teardown count and the setup count each grow by the
number of `FAILURE_UNKNOWN` results among the failures the loop ran
through (and not at all when `restart_on_fail` is off). -/
theorem tryLoop_ok_counts (cfg : Config) (env : Env) (u i : Nat) (url : String)
    (f : Nat → LoadResult) (hf : ∀ t, env.attempt u i t = AttemptOutcome.ok (f t)) :
    ∀ fuel tryNo st,
      (tryLoop cfg env u i url fuel tryNo st).num_restarts
        = st.num_restarts + (if cfg.restart_on_fail then
            (failuresBefore f tryNo fuel).countP
              (fun r => r.status == LoadStatus.failureUnknown) else 0) ∧
      (tryLoop cfg env u i url fuel tryNo st).trace.countP isTeardown
        = st.trace.countP isTeardown + (if cfg.restart_on_fail then
            (failuresBefore f tryNo fuel).countP
              (fun r => r.status == LoadStatus.failureUnknown) else 0) ∧
      (tryLoop cfg env u i url fuel tryNo st).trace.countP isSetup
        = st.trace.countP isSetup + (if cfg.restart_on_fail then
            (failuresBefore f tryNo fuel).countP
              (fun r => r.status == LoadStatus.failureUnknown) else 0) := by
  intro fuel
  induction fuel with
  | zero =>
    intro tryNo st
    simp [tryLoop, failuresBefore]
  | succ n ih =>
    intro tryNo st
    by_cases hs : ((f tryNo).status == LoadStatus.success) = true
    · have hstep : tryLoop cfg env u i url (n + 1) tryNo st
          = recordResult { st with trace := st.trace ++ [Event.attemptEv url i tryNo] }
              url (f tryNo) := by
        simp [tryLoop, hf tryNo, hs]
      rw [hstep]
      simp [recordResult, failuresBefore, hs, List.countP_append, List.countP_cons,
        isTeardown, isSetup]
    · have hsf : ((f tryNo).status == LoadStatus.success) = false := by
        simpa using hs
      have hfb : failuresBefore f tryNo (n + 1)
          = f tryNo :: failuresBefore f (tryNo + 1) n := by
        simp [failuresBefore, hsf]
      by_cases hrb : cfg.restart_on_fail = true
      · by_cases hu : ((f tryNo).status == LoadStatus.failureUnknown) = true
        · have hrf : ((f tryNo).status == LoadStatus.failureUnknown
              && cfg.restart_on_fail) = true := by
            rw [hu, hrb]
            rfl
          have hstep : tryLoop cfg env u i url (n + 1) tryNo st
              = tryLoop cfg env u i url n (tryNo + 1)
                  { (if (n == 0) = true then
                      recordResult
                        { st with trace := st.trace ++ [Event.attemptEv url i tryNo] }
                        url (f tryNo)
                     else
                      { st with trace := st.trace ++ [Event.attemptEv url i tryNo] }) with
                    trace := (if (n == 0) = true then
                      recordResult
                        { st with trace := st.trace ++ [Event.attemptEv url i tryNo] }
                        url (f tryNo)
                     else
                      { st with trace := st.trace ++ [Event.attemptEv url i tryNo] }).trace
                      ++ [Event.teardown, Event.setup]
                    num_restarts := (if (n == 0) = true then
                      recordResult
                        { st with trace := st.trace ++ [Event.attemptEv url i tryNo] }
                        url (f tryNo)
                     else
                      { st with trace := st.trace ++ [Event.attemptEv url i tryNo] }).num_restarts
                      + 1 } := by
            by_cases hn : (n == 0) = true <;>
              simp [tryLoop, hf tryNo, hsf, hrf, hn]
          rw [hstep]
          obtain ⟨ihr, iht, ihs⟩ := ih (tryNo + 1) _
          rw [ihr, iht, ihs, hfb]
          by_cases hn : (n == 0) = true <;>
            simp [hn, hrb, hu, recordResult, List.countP_append, List.countP_cons,
              isTeardown, isSetup] <;>
            omega
        · have hu' : ((f tryNo).status == LoadStatus.failureUnknown) = false := by
            simpa using hu
          have hrf : ((f tryNo).status == LoadStatus.failureUnknown
              && cfg.restart_on_fail) = false := by
            rw [hu']
            rfl
          have hstep : tryLoop cfg env u i url (n + 1) tryNo st
              = tryLoop cfg env u i url n (tryNo + 1)
                  (if (n == 0) = true then
                    recordResult
                      { st with trace := st.trace ++ [Event.attemptEv url i tryNo] }
                      url (f tryNo)
                   else
                    { st with trace := st.trace ++ [Event.attemptEv url i tryNo] }) := by
            by_cases hn : (n == 0) = true <;>
              simp [tryLoop, hf tryNo, hsf, hrf, hn]
          rw [hstep]
          obtain ⟨ihr, iht, ihs⟩ := ih (tryNo + 1) _
          rw [ihr, iht, ihs, hfb]
          by_cases hn : (n == 0) = true <;>
            simp [hn, hrb, hu', recordResult, List.countP_append, List.countP_cons,
              isTeardown, isSetup]
      · have hrb' : cfg.restart_on_fail = false := by
          cases h : cfg.restart_on_fail
          · rfl
          · exact absurd h hrb
        have hrf : ((f tryNo).status == LoadStatus.failureUnknown
            && cfg.restart_on_fail) = false := by
          rw [hrb']
          simp
        have hstep : tryLoop cfg env u i url (n + 1) tryNo st
            = tryLoop cfg env u i url n (tryNo + 1)
                (if (n == 0) = true then
                  recordResult
                    { st with trace := st.trace ++ [Event.attemptEv url i tryNo] }
                    url (f tryNo)
                 else
                  { st with trace := st.trace ++ [Event.attemptEv url i tryNo] }) := by
          by_cases hn : (n == 0) = true <;>
            simp [tryLoop, hf tryNo, hsf, hrf, hn]
        rw [hstep]
        obtain ⟨ihr, iht, ihs⟩ := ih (tryNo + 1) _
        rw [ihr, iht, ihs]
        by_cases hn : (n == 0) = true <;>
          simp [hn, hrb', recordResult, List.countP_append, List.countP_cons,
            isTeardown, isSetup]

/-- What the retry loop records when no attempt raises: exactly one result
per trial — the first success of the window if one occurs (stopping there),
otherwise the last failure — counting one backend call per executed try. -/
theorem tryLoop_ok_record (cfg : Config) (env : Env) (u i : Nat) (url : String)
    (f : Nat → LoadResult) (hf : ∀ t, env.attempt u i t = AttemptOutcome.ok (f t)) :
    ∀ fuel tryNo st,
      (match firstSuccess f tryNo fuel with
       | some k =>
           (tryLoop cfg env u i url fuel tryNo st).load_results url
               = st.load_results url ++ [f k] ∧
           (tryLoop cfg env u i url fuel tryNo st).trace.countP (isAttemptTrial url i)
               = st.trace.countP (isAttemptTrial url i) + (k + 1 - tryNo) ∧
           tryNo ≤ k ∧ k < tryNo + fuel ∧ (f k).status = LoadStatus.success ∧
           (∀ j, tryNo ≤ j → j < k → (f j).status ≠ LoadStatus.success)
       | none =>
           (∀ t, tryNo ≤ t → t < tryNo + fuel → (f t).status ≠ LoadStatus.success) ∧
           (0 < fuel →
             (tryLoop cfg env u i url fuel tryNo st).load_results url
                 = st.load_results url ++ [f (tryNo + fuel - 1)] ∧
             (tryLoop cfg env u i url fuel tryNo st).trace.countP (isAttemptTrial url i)
                 = st.trace.countP (isAttemptTrial url i) + fuel)) := by
  intro fuel
  induction fuel with
  | zero =>
    intro tryNo st
    simp only [firstSuccess]
    exact ⟨fun t h1 h2 => absurd (Nat.lt_of_lt_of_le h2 (by omega)) (Nat.lt_irrefl _),
      fun h => absurd h (Nat.lt_irrefl 0)⟩
  | succ n ih =>
    intro tryNo st
    by_cases hs : ((f tryNo).status == LoadStatus.success) = true
    · have hFS : firstSuccess f tryNo (n + 1) = some tryNo := by
        simp [firstSuccess, hs]
      have hstep : tryLoop cfg env u i url (n + 1) tryNo st
          = recordResult { st with trace := st.trace ++ [Event.attemptEv url i tryNo] }
              url (f tryNo) := by
        simp [tryLoop, hf tryNo, hs]
      rw [hFS, hstep]
      refine ⟨by simp [recordResult], ?_, le_refl _, by omega, by simpa using hs,
        fun j h1 h2 => absurd (Nat.lt_of_le_of_lt h1 h2) (Nat.lt_irrefl _)⟩
      simp [recordResult, List.countP_append, List.countP_cons, isAttemptTrial]
    · have hsf : ((f tryNo).status == LoadStatus.success) = false := by
        simpa using hs
      have hFS : firstSuccess f tryNo (n + 1) = firstSuccess f (tryNo + 1) n := by
        simp [firstSuccess, hsf]
      have hne : (f tryNo).status ≠ LoadStatus.success := by
        simpa using hsf
      by_cases hn : n = 0
      · subst hn
        have hFS0 : firstSuccess f (tryNo + 1) 0 = none := rfl
        rw [hFS, hFS0]
        have hstep : tryLoop cfg env u i url 1 tryNo st
            = (if ((f tryNo).status == LoadStatus.failureUnknown
                  && cfg.restart_on_fail) = true then
                { recordResult
                    { st with trace := st.trace ++ [Event.attemptEv url i tryNo] }
                    url (f tryNo) with
                  trace := (recordResult
                    { st with trace := st.trace ++ [Event.attemptEv url i tryNo] }
                    url (f tryNo)).trace ++ [Event.teardown, Event.setup]
                  num_restarts := (recordResult
                    { st with trace := st.trace ++ [Event.attemptEv url i tryNo] }
                    url (f tryNo)).num_restarts + 1 }
               else
                recordResult
                  { st with trace := st.trace ++ [Event.attemptEv url i tryNo] }
                  url (f tryNo)) := by
          by_cases hrf : ((f tryNo).status == LoadStatus.failureUnknown
              && cfg.restart_on_fail) = true <;>
            simp [tryLoop, hf tryNo, hsf, hrf]
        refine ⟨?_, fun _ => ?_⟩
        · intro t h1 h2
          have : t = tryNo := by omega
          rw [this]
          exact hne
        · rw [hstep]
          by_cases hrf : ((f tryNo).status == LoadStatus.failureUnknown
              && cfg.restart_on_fail) = true <;>
            simp [hrf, recordResult, List.countP_append, List.countP_cons,
              isAttemptTrial, isTeardown, isSetup]
      · have hn' : (n == 0) = false := by
          simp [hn]
        have hstep : tryLoop cfg env u i url (n + 1) tryNo st
            = tryLoop cfg env u i url n (tryNo + 1)
                (if ((f tryNo).status == LoadStatus.failureUnknown
                    && cfg.restart_on_fail) = true then
                  { st with
                    trace := (st.trace ++ [Event.attemptEv url i tryNo])
                      ++ [Event.teardown, Event.setup]
                    num_restarts := st.num_restarts + 1 }
                 else
                  { st with trace := st.trace ++ [Event.attemptEv url i tryNo] }) := by
          by_cases hrf : ((f tryNo).status == LoadStatus.failureUnknown
              && cfg.restart_on_fail) = true <;>
            simp [tryLoop, hf tryNo, hsf, hrf, hn']
        have hcnt : ∀ st' : RunState,
            (if ((f tryNo).status == LoadStatus.failureUnknown
                && cfg.restart_on_fail) = true then
              { st' with
                trace := (st'.trace ++ [Event.attemptEv url i tryNo])
                  ++ [Event.teardown, Event.setup]
                num_restarts := st'.num_restarts + 1 }
             else
              { st' with trace := st'.trace ++ [Event.attemptEv url i tryNo] }).trace.countP
                (isAttemptTrial url i)
              = st'.trace.countP (isAttemptTrial url i) + 1 := by
          intro st'
          by_cases hrf : ((f tryNo).status == LoadStatus.failureUnknown
              && cfg.restart_on_fail) = true <;>
            simp [hrf, List.countP_append, List.countP_cons, isAttemptTrial]
        have hld : ∀ st' : RunState,
            (if ((f tryNo).status == LoadStatus.failureUnknown
                && cfg.restart_on_fail) = true then
              { st' with
                trace := (st'.trace ++ [Event.attemptEv url i tryNo])
                  ++ [Event.teardown, Event.setup]
                num_restarts := st'.num_restarts + 1 }
             else
              { st' with trace := st'.trace ++ [Event.attemptEv url i tryNo] }).load_results
              = st'.load_results := by
          intro st'
          by_cases hrf : ((f tryNo).status == LoadStatus.failureUnknown
              && cfg.restart_on_fail) = true <;>
            simp [hrf]
        rw [hFS, hstep]
        have ihx := ih (tryNo + 1)
          (if ((f tryNo).status == LoadStatus.failureUnknown
              && cfg.restart_on_fail) = true then
            { st with
              trace := (st.trace ++ [Event.attemptEv url i tryNo])
                ++ [Event.teardown, Event.setup]
              num_restarts := st.num_restarts + 1 }
           else
            { st with trace := st.trace ++ [Event.attemptEv url i tryNo] })
        cases hFS' : firstSuccess f (tryNo + 1) n with
        | some k =>
          rw [hFS'] at ihx
          obtain ⟨ld, cnt, hk1, hk2, hk3, hk4⟩ := ihx
          rw [hld st] at ld
          rw [hcnt st] at cnt
          refine ⟨ld, by omega, by omega, by omega, hk3, ?_⟩
          intro j h1 h2
          by_cases hjt : j = tryNo
          · rw [hjt]
            exact hne
          · exact hk4 j (by omega) h2
        | none =>
          rw [hFS'] at ihx
          obtain ⟨hall, hpos⟩ := ihx
          obtain ⟨ld, cnt⟩ := hpos (by omega)
          rw [hld st] at ld
          rw [hcnt st] at cnt
          refine ⟨?_, fun _ => ⟨?_, ?_⟩⟩
          · intro t h1 h2
            by_cases hjt : t = tryNo
            · rw [hjt]
              exact hne
            · exact hall t (by omega) (by omega)
          · rw [ld]
            have : tryNo + 1 + n - 1 = tryNo + (n + 1) - 1 := by omega
            rw [this]
          · rw [cnt]
            omega

/-- C5: with no raising attempt, each trial calls the backend at most
`1 + retries_per_trial` times, stops at the first success, and records
exactly one result: the first success if one occurred within the allowed
tries, otherwise the failing result of the last try. -/
theorem retry_loop_records_one_result (cfg : Config) (env : Env) (u i : Nat)
    (url : String) (st : RunState) (f : Nat → LoadResult)
    (hf : ∀ t, env.attempt u i t = AttemptOutcome.ok (f t)) :
    (tryLoop cfg env u i url (cfg.retries_per_trial + 1) 1 st).trace.countP
        (isAttemptTrial url i)
      ≤ st.trace.countP (isAttemptTrial url i) + (1 + cfg.retries_per_trial) ∧
    ∃ r, (tryLoop cfg env u i url (cfg.retries_per_trial + 1) 1 st).load_results url
          = st.load_results url ++ [r] ∧
      ((∃ k, 1 ≤ k ∧ k ≤ 1 + cfg.retries_per_trial ∧
          (f k).status = LoadStatus.success ∧ r = f k ∧
          (∀ j, 1 ≤ j → j < k → (f j).status ≠ LoadStatus.success) ∧
          (tryLoop cfg env u i url (cfg.retries_per_trial + 1) 1 st).trace.countP
              (isAttemptTrial url i)
            = st.trace.countP (isAttemptTrial url i) + k)
       ∨ ((∀ t, 1 ≤ t → t ≤ 1 + cfg.retries_per_trial →
              (f t).status ≠ LoadStatus.success) ∧
          r = f (cfg.retries_per_trial + 1) ∧
          (tryLoop cfg env u i url (cfg.retries_per_trial + 1) 1 st).trace.countP
              (isAttemptTrial url i)
            = st.trace.countP (isAttemptTrial url i) + (1 + cfg.retries_per_trial))) := by
  have h := tryLoop_ok_record cfg env u i url f hf (cfg.retries_per_trial + 1) 1 st
  cases hFS : firstSuccess f 1 (cfg.retries_per_trial + 1) with
  | some k =>
    rw [hFS] at h
    obtain ⟨ld, cnt, hk1, hk2, hk3, hk4⟩ := h
    refine ⟨by omega, f k, ld, Or.inl ⟨k, hk1, by omega, hk3, rfl, hk4, by omega⟩⟩
  | none =>
    rw [hFS] at h
    obtain ⟨hall, hpos⟩ := h
    obtain ⟨ld, cnt⟩ := hpos (by omega)
    have h1 : 1 + (cfg.retries_per_trial + 1) - 1 = cfg.retries_per_trial + 1 := by omega
    rw [h1] at ld
    refine ⟨by omega, f (cfg.retries_per_trial + 1), ld,
      Or.inr ⟨fun t ht1 ht2 => hall t ht1 (by omega), rfl, by omega⟩⟩

/-- C5 witness: two retries, two failures then a success — one recorded
result, the success, after three backend calls. -/
theorem retry_loop_records_one_result_witness :
    (tryLoop cfgRetry envRetry 0 0 "u" (cfgRetry.retries_per_trial + 1) 1 initState).trace.countP
        (isAttemptTrial "u" 0)
      ≤ initState.trace.countP (isAttemptTrial "u" 0) + (1 + cfgRetry.retries_per_trial) ∧
    ∃ r, (tryLoop cfgRetry envRetry 0 0 "u" (cfgRetry.retries_per_trial + 1) 1
            initState).load_results "u"
          = initState.load_results "u" ++ [r] ∧
      ((∃ k, 1 ≤ k ∧ k ≤ 1 + cfgRetry.retries_per_trial ∧
          (fRetry k).status = LoadStatus.success ∧ r = fRetry k ∧
          (∀ j, 1 ≤ j → j < k → (fRetry j).status ≠ LoadStatus.success) ∧
          (tryLoop cfgRetry envRetry 0 0 "u" (cfgRetry.retries_per_trial + 1) 1
              initState).trace.countP (isAttemptTrial "u" 0)
            = initState.trace.countP (isAttemptTrial "u" 0) + k)
       ∨ ((∀ t, 1 ≤ t → t ≤ 1 + cfgRetry.retries_per_trial →
              (fRetry t).status ≠ LoadStatus.success) ∧
          r = fRetry (cfgRetry.retries_per_trial + 1) ∧
          (tryLoop cfgRetry envRetry 0 0 "u" (cfgRetry.retries_per_trial + 1) 1
              initState).trace.countP (isAttemptTrial "u" 0)
            = initState.trace.countP (isAttemptTrial "u" 0)
              + (1 + cfgRetry.retries_per_trial))) :=
  retry_loop_records_one_result cfgRetry envRetry 0 0 "u" initState fRetry (fun t => rfl)

/-- C6: with `restart_on_fail` on and no raising attempt, the restart
counter and the teardown and setup event counts each grow by exactly the
number of executed attempts whose result is `FAILURE_UNKNOWN`; if no
executed attempt reports `FAILURE_UNKNOWN` (e.g. only timeouts), the
counter does not move. -/
theorem restart_counts_unknown_failures (cfg : Config) (env : Env) (u i : Nat)
    (url : String) (st : RunState) (f : Nat → LoadResult)
    (hf : ∀ t, env.attempt u i t = AttemptOutcome.ok (f t))
    (hre : cfg.restart_on_fail = true) :
    (tryLoop cfg env u i url (cfg.retries_per_trial + 1) 1 st).num_restarts
        = st.num_restarts + (failuresBefore f 1 (cfg.retries_per_trial + 1)).countP
            (fun r => r.status == LoadStatus.failureUnknown) ∧
    (tryLoop cfg env u i url (cfg.retries_per_trial + 1) 1 st).trace.countP isTeardown
        = st.trace.countP isTeardown
          + (failuresBefore f 1 (cfg.retries_per_trial + 1)).countP
            (fun r => r.status == LoadStatus.failureUnknown) ∧
    (tryLoop cfg env u i url (cfg.retries_per_trial + 1) 1 st).trace.countP isSetup
        = st.trace.countP isSetup
          + (failuresBefore f 1 (cfg.retries_per_trial + 1)).countP
            (fun r => r.status == LoadStatus.failureUnknown) ∧
    ((∀ t, 1 ≤ t → t ≤ 1 + cfg.retries_per_trial →
        (f t).status ≠ LoadStatus.failureUnknown) →
      (tryLoop cfg env u i url (cfg.retries_per_trial + 1) 1 st).num_restarts
        = st.num_restarts) := by
  obtain ⟨hr, ht, hsu⟩ :=
    tryLoop_ok_counts cfg env u i url f hf (cfg.retries_per_trial + 1) 1 st
  simp only [hre, if_true] at hr ht hsu
  refine ⟨hr, ht, hsu, ?_⟩
  intro hnone
  have hzero : (failuresBefore f 1 (cfg.retries_per_trial + 1)).countP
      (fun r => r.status == LoadStatus.failureUnknown) = 0 := by
    rw [List.countP_eq_zero]
    intro r hmem
    obtain ⟨j, hj1, hj2, hj3⟩ := failuresBefore_mem f (cfg.retries_per_trial + 1) 1 r hmem
    rw [hj3]
    simpa using hnone j hj1 (by omega)
  rw [hr, hzero]
  omega

/-- C6 witness: an unknown failure, then a timeout, then a success — the
restart counter moves by exactly one (for the unknown failure only). -/
theorem restart_counts_unknown_failures_witness :
    (tryLoop cfgRetryRestart envRetry 0 0 "u" (cfgRetryRestart.retries_per_trial + 1) 1
        initState).num_restarts
      = initState.num_restarts
        + (failuresBefore fRetry 1 (cfgRetryRestart.retries_per_trial + 1)).countP
          (fun r => r.status == LoadStatus.failureUnknown) ∧
    (tryLoop cfgRetryRestart envRetry 0 0 "u" (cfgRetryRestart.retries_per_trial + 1) 1
        initState).trace.countP isTeardown
      = initState.trace.countP isTeardown
        + (failuresBefore fRetry 1 (cfgRetryRestart.retries_per_trial + 1)).countP
          (fun r => r.status == LoadStatus.failureUnknown) ∧
    (tryLoop cfgRetryRestart envRetry 0 0 "u" (cfgRetryRestart.retries_per_trial + 1) 1
        initState).trace.countP isSetup
      = initState.trace.countP isSetup
        + (failuresBefore fRetry 1 (cfgRetryRestart.retries_per_trial + 1)).countP
          (fun r => r.status == LoadStatus.failureUnknown) ∧
    ((∀ t, 1 ≤ t → t ≤ 1 + cfgRetryRestart.retries_per_trial →
        (fRetry t).status ≠ LoadStatus.failureUnknown) →
      (tryLoop cfgRetryRestart envRetry 0 0 "u" (cfgRetryRestart.retries_per_trial + 1) 1
          initState).num_restarts
        = initState.num_restarts) :=
  restart_counts_unknown_failures cfgRetryRestart envRetry 0 0 "u" initState fRetry
    (fun t => rfl) rfl

/-- When every attempt of this URL succeeds at its first try with a truthy
time, the trial loop appends exactly one such result per trial. -/
theorem trialLoop_allSucc (cfg : Config) (env : Env) (u : Nat) (url : String)
    (g : Nat → Nat → LoadResult)
    (hf : ∀ i t, env.attempt u i t = AttemptOutcome.ok (g i t))
    (hsucc : ∀ i t, (g i t).status = LoadStatus.success ∧ truthy (g i t).time = true) :
    ∀ fuel i st, ∃ app,
      (trialLoop cfg env u url i fuel st).load_results url
          = st.load_results url ++ app ∧
      app.length = fuel ∧
      ∀ r ∈ app, (r.status == LoadStatus.success && truthy r.time) = true := by
  intro fuel
  induction fuel with
  | zero =>
    intro i st
    exact ⟨[], by simp [trialLoop], rfl, by simp⟩
  | succ n ih =>
    intro i st
    have hbeq : ((g i 1).status == LoadStatus.success) = true := by
      simp [(hsucc i 1).1]
    have hone : tryLoop cfg env u i url (cfg.retries_per_trial + 1) 1 st
        = recordResult { st with trace := st.trace ++ [Event.attemptEv url i 1] }
            url (g i 1) := by
      simp [tryLoop, hf i 1, hbeq]
    have hloop : trialLoop cfg env u url i (n + 1) st
        = trialLoop cfg env u url (i + 1) n
            (tryLoop cfg env u i url (cfg.retries_per_trial + 1) 1 st) := rfl
    obtain ⟨app, happ, hlen, hall⟩ := ih (i + 1)
      (tryLoop cfg env u i url (cfg.retries_per_trial + 1) 1 st)
    refine ⟨g i 1 :: app, ?_, by simp [hlen], ?_⟩
    · rw [hloop, happ, hone]
      simp [recordResult]
    · intro r hr
      rcases List.mem_cons.mp hr with h | h
      · rw [h, hbeq, (hsucc i 1).2]
        rfl
      · exact hall r h

/-- C10: trial results accumulate in a run-wide table keyed by the
normalized URL: when the same URL occurs twice in the input, the second
occurrence's summary is computed from the results of both occurrences
(here `2 * num_trials` of them, so `times` holds `num_trials` entries per
occurrence) and is the single entry replacing the first occurrence's
summary in `page_results`. -/
theorem duplicate_url_accumulates (cfg : Config) (env : Env) (raw : String)
    (g : Nat → Nat → Nat → LoadResult)
    (hs : env.setupOk = true)
    (hc : cfg.check_protocol_availability = false)
    (hf : ∀ o i t, env.attempt o i t = AttemptOutcome.ok (g o i t))
    (hsucc : ∀ o i t, (g o i t).status = LoadStatus.success ∧ truthy (g o i t).time = true) :
    ((Loader.load_pages cfg env [raw, raw]).load_results (Loader.check_url raw)).length
        = 2 * cfg.num_trials ∧
    (Loader.load_pages cfg env [raw, raw]).page_results (Loader.check_url raw)
        = some (PageResult.make (Loader.check_url raw) none
            ((Loader.load_pages cfg env [raw, raw]).load_results (Loader.check_url raw))) ∧
    ∃ pr, (Loader.load_pages cfg env [raw, raw]).page_results (Loader.check_url raw)
            = some pr ∧
          pr.times.length = 2 * cfg.num_trials := by
  have hstep : ∀ (o : Nat) (st : RunState), urlStep cfg env o raw st
      = finishUrl (trialLoop cfg env o (Loader.check_url raw) 0 cfg.num_trials st)
          (Loader.check_url raw) := by
    intro o st
    simp [urlStep, hc]
  have hrun : Loader.load_pages cfg env [raw, raw]
      = { (urlStep cfg env 1 raw
            (urlStep cfg env 0 raw { initState with trace := [Event.setup] })) with
          trace := (urlStep cfg env 1 raw
            (urlStep cfg env 0 raw { initState with trace := [Event.setup] })).trace
            ++ [Event.teardown] } := by
    simp [Loader.load_pages, hs, urlLoop]
  obtain ⟨app0, happ0, hlen0, hall0⟩ :=
    trialLoop_allSucc cfg env 0 (Loader.check_url raw) (g 0)
      (fun i t => hf 0 i t) (fun i t => hsucc 0 i t) cfg.num_trials 0
      { initState with trace := [Event.setup] }
  obtain ⟨app1, happ1, hlen1, hall1⟩ :=
    trialLoop_allSucc cfg env 1 (Loader.check_url raw) (g 1)
      (fun i t => hf 1 i t) (fun i t => hsucc 1 i t) cfg.num_trials 0
      (urlStep cfg env 0 raw { initState with trace := [Event.setup] })
  have hload0 : (urlStep cfg env 0 raw
      { initState with trace := [Event.setup] }).load_results (Loader.check_url raw)
      = app0 := by
    rw [hstep 0]
    simpa [finishUrl, initState] using happ0
  have hload1 : (urlStep cfg env 1 raw
      (urlStep cfg env 0 raw { initState with trace := [Event.setup] })).load_results
      (Loader.check_url raw) = app0 ++ app1 := by
    rw [hstep 1]
    simp only [finishUrl]
    rw [happ1, hload0]
  have hpage1 : (urlStep cfg env 1 raw
      (urlStep cfg env 0 raw { initState with trace := [Event.setup] })).page_results
      (Loader.check_url raw)
      = some (PageResult.make (Loader.check_url raw) none (app0 ++ app1)) := by
    rw [hstep 1]
    simp only [finishUrl, if_pos rfl]
    rw [happ1, hload0]
    simp
  have hfinal_load : (Loader.load_pages cfg env [raw, raw]).load_results
      (Loader.check_url raw) = app0 ++ app1 := by
    rw [hrun]
    exact hload1
  have hfinal_page : (Loader.load_pages cfg env [raw, raw]).page_results
      (Loader.check_url raw)
      = some (PageResult.make (Loader.check_url raw) none (app0 ++ app1)) := by
    rw [hrun]
    exact hpage1
  have hlen : (app0 ++ app1).length = 2 * cfg.num_trials := by
    simp [hlen0, hlen1]
    omega
  refine ⟨by rw [hfinal_load, hlen], by rw [hfinal_page, hfinal_load], ?_⟩
  refine ⟨PageResult.make (Loader.check_url raw) none (app0 ++ app1), hfinal_page, ?_⟩
  rw [make_times_length]
  rw [List.countP_eq_length.mpr]
  · exact hlen
  · intro r hr
    rcases List.mem_append.mp hr with h | h
    · exact hall0 r h
    · exact hall1 r h

/-- C10 witness: one trial per URL, the same URL twice, every attempt a
timed success — the duplicate's summary is built from both occurrences'
results and its `times` holds 2 entries, exceeding `num_trials = 1`. -/
theorem duplicate_url_accumulates_witness :
    ((Loader.load_pages cfgDup envDup ["d", "d"]).load_results
        (Loader.check_url "d")).length = 2 * cfgDup.num_trials ∧
    (Loader.load_pages cfgDup envDup ["d", "d"]).page_results (Loader.check_url "d")
        = some (PageResult.make (Loader.check_url "d") none
            ((Loader.load_pages cfgDup envDup ["d", "d"]).load_results
              (Loader.check_url "d"))) ∧
    ∃ pr, (Loader.load_pages cfgDup envDup ["d", "d"]).page_results
            (Loader.check_url "d") = some pr ∧
          pr.times.length = 2 * cfgDup.num_trials :=
  duplicate_url_accumulates cfgDup envDup "d" (fun _ _ _ => resDup) rfl rfl
    (fun _ _ _ => rfl) (fun _ _ _ => ⟨rfl, rfl⟩)

/-- C4 witness: a timed backend with one trial — one success with a time,
one `times` entry. -/
theorem times_counts_timed_successes_witness :
    (PageResult.make "http://x" none [resTimed]).times.length
        = ((Loader.load_pages cfgChrome envTimed ["x"]).load_results
            (Loader.check_url "x")).countP
            (fun r => r.status == LoadStatus.success && truthy r.time) ∧
    (PageResult.make "http://x" none [resTimed]).times.length ≤ cfgChrome.num_trials :=
  times_counts_timed_successes cfgChrome envTimed ["x"] "x"
    (PageResult.make "http://x" none [resTimed]) (by decide) (by decide) (by decide)

end WebLoader
